import Mathlib

/-!
Verification of the `spinlock` repository: shallow embeddings of its
synchronization and shared-ownership primitives, with theorems settling the
specification claims about them.

Embedded components and their sources:
* `SimpleArc`    — `src/arc/src/simple_arc.rs` (atomic reference-counted pointer)
* `MutexModel`   — `src/lock/src/lib.rs` (three-state futex mutex)
* `RwModel`      — `src/rwlock/src/lib.rs` (reader-writer lock; `read`/`write`
  bodies are empty in the source, so those two steps are modelled from the spec)
* `SafeOneshot`  — `src/channels/src/safe_oneshot.rs`
* `UnsafeOneshot`— `src/channels/src/unsafe_oneshot.rs`
* `SimpleChan`   — `src/channels/src/simple.rs` (blocking FIFO queue channel)
* `MutualExclusion` — an interleaving transition system built from the atomic
  operations of the lock implementations, for the cross-thread claims.
-/

namespace SimpleArc

/-- Wrap-around modulus of `usize` arithmetic on a 64-bit target:
`fetch_add`/`fetch_sub` wrap modulo `2 ^ 64`. -/
def usizeMod : Nat := 2 ^ 64

/-- `usize::MAX`. -/
def usizeMax : Nat := usizeMod - 1

/-- Observable lifecycle state of one `ArcData` block:
the `ref_count` atomic word, whether the heap block has been deallocated,
and how many times the payload destructor has run. -/
structure ArcState where
  refCount : Nat
  freed : Bool
  payloadDrops : Nat
  deriving Repr, DecidableEq

/-- `Arc::new`: allocates the block with `ref_count` initialized to `0`
(`AtomicUsize::new(0)` in the source). -/
def arcNew : ArcState :=
  { refCount := 0, freed := false, payloadDrops := 0 }

/-- `Clone for Arc`: `fetch_add(1, Relaxed)` on the count; when the returned
old value exceeds `usize::MAX / 2` the process is aborted (`none`). -/
def arcClone (s : ArcState) : Option ArcState :=
  if s.refCount > usizeMax / 2 then none
  else some { s with refCount := (s.refCount + 1) % usizeMod }

/-- `Drop for Arc`: `fetch_sub(1, Release)`; when the observed old value is
exactly `1`, the dropping handle frees the block, running the payload
destructor. -/
def arcDrop (s : ArcState) : ArcState :=
  let old := s.refCount
  let s1 := { s with refCount := (old + usizeMod - 1) % usizeMod }
  if old = 1 then
    { s1 with freed := true, payloadDrops := s1.payloadDrops + 1 }
  else s1

/-- `Arc::get_mut`: offers the mutable reference exactly when the loaded
`ref_count` is `1`; `some ()` stands for `Some(&mut T)`. -/
def arcGetMut (s : ArcState) : Option Unit :=
  if s.refCount = 1 then some () else none

end SimpleArc

namespace MutexModel

/-- The mutex `state: AtomicU32` word together with a counter of how many
times `wake_one` has been invoked on it. -/
structure MutexWord where
  state : Nat
  wakeOneCalls : Nat
  deriving Repr, DecidableEq

/-- `AtomicU32::swap`: returns the old value and stores the new one
(wrapping into the `u32` range). -/
def atomicSwap (newVal : Nat) (s : MutexWord) : Nat × MutexWord :=
  (s.state, { s with state := newVal % 2 ^ 32 })

/-- `atomic_wait::wake_one` on the state word. -/
def wakeOne (s : MutexWord) : MutexWord :=
  { s with wakeOneCalls := s.wakeOneCalls + 1 }

/-- `Drop for MutexGuard`: swap the state to `0` with release ordering and,
when the swapped-out old value was `2`, wake a single waiting thread. -/
def mutexGuardDrop (s : MutexWord) : MutexWord :=
  let r := atomicSwap 0 s
  if r.1 = 2 then wakeOne r.2 else r.2

end MutexModel

namespace RwModel

/-- Writer sentinel of the reader-writer lock state word: `u32::MAX`
("Numbers of readers or `u32::MAX` when there is a writer lock"). -/
def writerSentinel : Nat := 2 ^ 32 - 1

/-- Modelled from the spec: `RwLock::read` has an empty body in
`src/rwlock/src/lib.rs`, so the acquisition step is taken from §4.4 of the
spec — atomically increment the reader count whenever the state is not the
writer sentinel; otherwise the caller blocks (`none` = must wait, never an
error). -/
def readAcquire (state : Nat) : Option Nat :=
  if state = writerSentinel then none else some (state + 1)

/-- Modelled from the spec: `RwLock::write` has an empty body in
`src/rwlock/src/lib.rs`, so the acquisition step is taken from §4.4 of the
spec — transition the state to the writer sentinel only when the current
value is `0`; otherwise the caller blocks (`none` = must wait, never an
error). -/
def writeAcquire (state : Nat) : Option Nat :=
  if state = 0 then some writerSentinel else none

end RwModel

/-- Result of a oneshot `receive` call: the received value, a panic with the
given message, or an out-of-model read of an uninitialized slot (unreachable
through the public API). -/
inductive RecvResult (T : Type) where
  | ok (v : T)
  | panicked (msg : String)
  | uninit
  deriving Repr, DecidableEq

/-- Result of the unsafe oneshot `send` call. -/
inductive SendResult where
  | sent
  | panicked (msg : String)
  deriving Repr, DecidableEq

namespace SafeOneshot

/-- Shared state of the safe oneshot channel: the `MaybeUninit` message slot
(`none` = still uninitialized) and the `ready: AtomicBool` flag. -/
structure Channel (T : Type) where
  message : Option T
  ready : Bool
  deriving Repr, DecidableEq

/-- The freshly allocated channel built by `channel()`: uninitialized slot,
`ready = false`. -/
def newChannel (T : Type) : Channel T :=
  { message := none, ready := false }

/-- `AtomicBool::swap` on the `ready` flag: returns the old value and stores
the new one. -/
def swapReady (b : Bool) (c : Channel T) : Bool × Channel T :=
  (c.ready, { c with ready := b })

/-- `Sender::send`: writes the message into the slot, then stores
`ready = true` with release ordering. The sender handle is consumed by the
call. -/
def send (v : T) (_c : Channel T) : Channel T :=
  { message := some v, ready := true }

/-- `Receiver::receive`: swaps `ready` to `false` with acquire ordering;
when the prior value was `false` the call panics with "No messages";
otherwise `assume_init_read` copies the value out of the slot (the slot
keeps its bits). -/
def receive (c : Channel T) : RecvResult T × Channel T :=
  let r := swapReady false c
  if r.1 then
    match r.2.message with
    | some v => (RecvResult.ok v, r.2)
    | none => (RecvResult.uninit, r.2)
  else (RecvResult.panicked "No messages", r.2)

/-- State reached after `n` consecutive `receive` attempts (results
discarded). -/
def recvIter (n : Nat) (c : Channel T) : Channel T :=
  (fun s => (receive s).2)^[n] c

/-- `Drop for Channel`: the number of times the message destructor runs when
the shared block is destroyed — `assume_init_drop` is called exactly when
the `ready` flag is still `true`. -/
def dropDestroys (c : Channel T) : Nat :=
  if c.ready then 1 else 0

end SafeOneshot

namespace UnsafeOneshot

/-- Shared state of the unsafe oneshot channel: the `MaybeUninit` slot,
`in_use: AtomicBool`, and `ready: AtomicBool`. -/
structure UChannel (T : Type) where
  message : Option T
  inUse : Bool
  ready : Bool
  deriving Repr, DecidableEq

/-- `UnsafeOneshotChannel::new`. -/
def newU (T : Type) : UChannel T :=
  { message := none, inUse := false, ready := false }

/-- `UnsafeOneshotChannel::send`: `in_use.swap(true, Relaxed)`; when the old
value was `true` the call panics (the flag stays set); otherwise the message
is written and `ready` stored `true` with release ordering. -/
def usend (v : T) (c : UChannel T) : SendResult × UChannel T :=
  let old := c.inUse
  let c1 := { c with inUse := true }
  if old then (SendResult.panicked "Cannot send more than 1 message", c1)
  else (SendResult.sent, { c1 with message := some v, ready := true })

/-- `UnsafeOneshotChannel::receive`: swaps `ready` to `false` with acquire
ordering; panics with "Message not ready!" when the prior value was `false`;
otherwise copies the value out of the slot. -/
def ureceive (c : UChannel T) : RecvResult T × UChannel T :=
  let old := c.ready
  let c1 := { c with ready := false }
  if old then
    match c1.message with
    | some v => (RecvResult.ok v, c1)
    | none => (RecvResult.uninit, c1)
  else (RecvResult.panicked "Message not ready!", c1)

/-- One call against the unsafe channel, for reasoning about call
histories. -/
inductive UOp (T : Type) where
  | send (v : T)
  | recv

/-- Apply one call to the channel state, discarding the call result. -/
def ustep (c : UChannel T) (op : UOp T) : UChannel T :=
  match op with
  | UOp.send v => (usend v c).2
  | UOp.recv => (ureceive c).2

/-- State after a history of calls against a fresh channel. -/
def uexec (tr : List (UOp T)) : UChannel T :=
  tr.foldl ustep (newU T)

/-- Whether a call history contains a `send`. -/
def hasSend : List (UOp T) → Bool
  | [] => false
  | UOp.send _ :: _ => true
  | UOp.recv :: tr => hasSend tr

end UnsafeOneshot

namespace SimpleChan

/-- `SimpleChannel::send` on the locked queue: `push_back`. -/
def sendQ (q : List T) (v : T) : List T := q ++ [v]

/-- `SimpleChannel::receive` on the locked queue: `pop_front`; `none` means
the queue is empty and the receiver blocks on the condition variable. -/
def receiveQ (q : List T) : Option (T × List T) :=
  match q with
  | [] => none
  | x :: xs => some (x, xs)

/-- Observable channel state: the protected queue and the list of values
already returned by successful receives, in order. -/
structure QState (T : Type) where
  queue : List T
  received : List T
  deriving Repr, DecidableEq

/-- One interleaved event: a send of a value, or a receive attempt. -/
inductive QOp (T : Type) where
  | send (v : T)
  | recv

/-- Apply one event: `send` appends to the back of the queue; `recv` pops
the front when possible (otherwise the receiver keeps blocking and the state
is unchanged). -/
def qstep (s : QState T) (op : QOp T) : QState T :=
  match op with
  | QOp.send v => { s with queue := sendQ s.queue v }
  | QOp.recv =>
    match receiveQ s.queue with
    | none => s
    | some (x, rest) => { queue := rest, received := s.received ++ [x] }

/-- State after a sequence of interleaved events on a fresh channel. -/
def qexec (tr : List (QOp T)) : QState T :=
  tr.foldl qstep { queue := [], received := [] }

/-- The values sent by a sequence of events, in order. -/
def sentList (tr : List (QOp T)) : List T :=
  tr.filterMap fun op =>
    match op with
    | QOp.send v => some v
    | QOp.recv => none

end SimpleChan

namespace MutualExclusion

/-- A lock, abstracted to what its atomic acquisition and release
instructions do to the shared lock word.  `free w` says the word is in the
released state; every acquisition instruction is an atomic read-modify-write
whose read determines success (the word was free) and whose write leaves the
word busy; release makes the word free again. -/
structure LockModel where
  Word : Type
  AcqOp : Type
  free : Word → Bool
  init : Word
  acqEffect : AcqOp → Word → Word
  release : Word → Word
  acq_busy : ∀ (o : AcqOp) (w : Word), free (acqEffect o w) = false
  release_free : ∀ w : Word, free (release w) = true
  init_free : free init = true

/-- Program location of one thread in the lock/increment/unlock loop. -/
inductive Loc where
  | idle
  | readCS
  | writeCS (reg : Nat)
  | unlockCS
  deriving Repr, DecidableEq

/-- Whether a location is inside the critical section, i.e. the thread
currently owns a guard. -/
def Loc.holds : Loc → Bool
  | Loc.idle => false
  | _ => true

/-- One thread: its location and the number of loop iterations it still has
to complete. -/
structure TState where
  loc : Loc
  rem : Nat
  deriving Repr, DecidableEq

/-- Global state: the shared lock word, the shared counter, and all thread
states. -/
structure Sys (L : LockModel) (T : Nat) where
  word : L.Word
  counter : Nat
  threads : Fin T → TState

/-- Initial state: lock word as constructed, counter `0`, every thread idle
with `iters` iterations to go. -/
def initSys (L : LockModel) (T iters : Nat) : Sys L T :=
  { word := L.init, counter := 0, threads := fun _ => { loc := Loc.idle, rem := iters } }

/-- Interleaving semantics: one atomic step of one thread.  Acquisition
attempts are the atomic read-modify-write instructions of the lock; the critical
section reads the counter into a register, writes back the incremented
register, then drops the guard. -/
inductive Step (L : LockModel) (T : Nat) : Sys L T → Sys L T → Prop where
  | acquire (t : Fin T) (o : L.AcqOp) (s : Sys L T)
      (hloc : (s.threads t).loc = Loc.idle) (hrem : (s.threads t).rem ≠ 0)
      (hfree : L.free s.word = true) :
      Step L T s
        { word := L.acqEffect o s.word, counter := s.counter,
          threads := Function.update s.threads t
            { loc := Loc.readCS, rem := (s.threads t).rem } }
  | acquireFail (t : Fin T) (o : L.AcqOp) (s : Sys L T)
      (hloc : (s.threads t).loc = Loc.idle) (hrem : (s.threads t).rem ≠ 0)
      (hbusy : L.free s.word = false) :
      Step L T s { s with word := L.acqEffect o s.word }
  | readCtr (t : Fin T) (s : Sys L T)
      (hloc : (s.threads t).loc = Loc.readCS) :
      Step L T s
        { word := s.word, counter := s.counter,
          threads := Function.update s.threads t
            { loc := Loc.writeCS s.counter, rem := (s.threads t).rem } }
  | writeCtr (t : Fin T) (s : Sys L T) (reg : Nat)
      (hloc : (s.threads t).loc = Loc.writeCS reg) :
      Step L T s
        { word := s.word, counter := reg + 1,
          threads := Function.update s.threads t
            { loc := Loc.unlockCS, rem := (s.threads t).rem } }
  | unlock (t : Fin T) (s : Sys L T)
      (hloc : (s.threads t).loc = Loc.unlockCS) :
      Step L T s
        { word := L.release s.word, counter := s.counter,
          threads := Function.update s.threads t
            { loc := Loc.idle, rem := (s.threads t).rem - 1 } }

/-- Reachability from the initial state by interleaved atomic steps. -/
def Reachable (L : LockModel) (T iters : Nat) (s : Sys L T) : Prop :=
  Relation.ReflTransGen (Step L T) (initSys L T iters) s

/-- No two threads simultaneously own a guard over the same lock. -/
def MutexExcl {L : LockModel} {T : Nat} (s : Sys L T) : Prop :=
  ∀ t1 t2 : Fin T, (s.threads t1).loc.holds → (s.threads t2).loc.holds → t1 = t2

/-- Every thread has finished its loop. -/
def AllDone {L : LockModel} {T : Nat} (s : Sys L T) : Prop :=
  ∀ t : Fin T, (s.threads t).loc = Loc.idle ∧ (s.threads t).rem = 0

/-- Counter writes completed by one thread. -/
def writesDone (iters : Nat) (th : TState) : Nat :=
  (iters - th.rem) + (match th.loc with | Loc.unlockCS => 1 | _ => 0)

/-- Inductive invariant: mutual exclusion; a held lock word is busy;
iteration budgets are bounded and positive inside the critical section; a
register loaded in the critical section still matches the counter; and the
counter equals the total number of completed writes. -/
structure Inv (L : LockModel) (T iters : Nat) (s : Sys L T) : Prop where
  mutex : MutexExcl s
  busy : ∀ t : Fin T, (s.threads t).loc.holds → L.free s.word = false
  remBound : ∀ t : Fin T, (s.threads t).rem ≤ iters
  remPos : ∀ t : Fin T, (s.threads t).loc.holds → 1 ≤ (s.threads t).rem
  regSync : ∀ (t : Fin T) (reg : Nat), (s.threads t).loc = Loc.writeCS reg → reg = s.counter
  counterSum : s.counter = ∑ t : Fin T, writesDone iters (s.threads t)

/-- The spin lock of `src/src/lib.rs`: word is the `locked: AtomicBool`;
the sole acquisition instruction is `swap(true, Acquire)` (success iff the
old value was `false`); the guard drop stores `false`. -/
def spinLockModel : LockModel where
  Word := Bool
  AcqOp := Unit
  free w := !w
  init := false
  acqEffect _ _ := true
  release _ := false
  acq_busy := by intro o w; rfl
  release_free := by intro w; rfl
  init_free := by rfl

/-- The mutex of `src/lock/src/lib.rs`: word is the `state: AtomicU32`
(`0` unlocked, `1` locked, `2` locked with waiters); acquisition
instructions are `compare_exchange(0, 1, Acquire, Relaxed)` (op `false`) and
`swap(2, Acquire)` (op `true`, success iff the old value was `0`); the guard
drop swaps in `0`. -/
def mutexLockModel : LockModel where
  Word := Nat
  AcqOp := Bool
  free w := w == 0
  init := 0
  acqEffect o w :=
    match o with
    | false => if w = 0 then 1 else w
    | true => 2
  release _ := 0
  acq_busy := by
    intro o w
    cases o
    · by_cases h : w = 0 <;> simp [h]
    · simp
  release_free := by intro w; rfl
  init_free := by rfl

/-- The reader-writer lock of `src/rwlock/src/lib.rs` in write mode, among
writers: the acquisition instruction is modelled from the spec (§4.4,
`read`/`write` bodies are empty in the source) as a compare-and-exchange
`0 → u32::MAX`; the `WriteGuard` drop (implemented in the source) swaps in
`0`. -/
def rwWriteModel : LockModel where
  Word := Nat
  AcqOp := Unit
  free w := w == 0
  init := 0
  acqEffect _ w := if w = 0 then RwModel.writerSentinel else w
  release _ := 0
  acq_busy := by
    intro o w
    by_cases h : w = 0 <;> simp [h, RwModel.writerSentinel]
  release_free := by intro w; rfl
  init_free := by rfl

end MutualExclusion

/-!
## Theorems

Claim theorems (one per claim of the specification), preceded by the shared
helper lemmas they build on.
-/

/-- C1: the claim says that starting from `Arc::new(v)`, N clones followed by
N+1 drops run the payload destructor exactly once and only at the last drop.
The code initializes `ref_count` to `0`, so this fails: with N = 0 the single
drop underflows the count to `usize::MAX` and the destructor never runs, and
with N = 1 the destructor already runs at the first of the two drops (freeing
the block while a handle is still live).  This theorem evaluates the embedded
code at both failing inputs. -/
theorem arc_destructor_misplaced_on_init_zero :
    (SimpleArc.arcDrop SimpleArc.arcNew).payloadDrops = 0 ∧
    (SimpleArc.arcDrop SimpleArc.arcNew).freed = false ∧
    (SimpleArc.arcDrop SimpleArc.arcNew).refCount = SimpleArc.usizeMax ∧
    (∃ s1 : SimpleArc.ArcState,
      SimpleArc.arcClone SimpleArc.arcNew = some s1 ∧
      (SimpleArc.arcDrop s1).freed = true ∧
      (SimpleArc.arcDrop s1).payloadDrops = 1) := by
  refine ⟨by decide, by decide, by decide,
    ⟨{ refCount := 1, freed := false, payloadDrops := 0 }, by decide, by decide, by decide⟩⟩

/-- C2: the claim says `Arc::get_mut` returns `Some` iff the calling handle
is the only handle, and in particular returns `Some` for a fresh never-cloned
`Arc::new(v)`.  Because `ref_count` starts at `0`, the code returns `None`
for the fresh sole handle and `Some` once a clone exists (two live handles).
This theorem evaluates the embedded code at both failing inputs. -/
theorem arc_get_mut_wrong_on_init_zero :
    SimpleArc.arcGetMut SimpleArc.arcNew = none ∧
    (∃ s1 : SimpleArc.ArcState,
      SimpleArc.arcClone SimpleArc.arcNew = some s1 ∧
      SimpleArc.arcGetMut s1 = some ()) := by
  refine ⟨by decide,
    ⟨{ refCount := 1, freed := false, payloadDrops := 0 }, by decide, by decide⟩⟩

/-- C3: `read` increments the reader count exactly when the state is not the
writer sentinel (otherwise the caller blocks, it never errors), and `write`
transitions the state to the writer sentinel exactly when the current value
is `0` (otherwise the caller blocks, it never errors).  The acquisition
steps are modelled from the spec because the source bodies are empty. -/
theorem rwlock_read_and_write_acquire (s : Nat) :
    (RwModel.readAcquire s = some (s + 1) ↔ s ≠ RwModel.writerSentinel) ∧
    (RwModel.readAcquire s = none ↔ s = RwModel.writerSentinel) ∧
    (RwModel.writeAcquire s = some RwModel.writerSentinel ↔ s = 0) ∧
    (RwModel.writeAcquire s = none ↔ s ≠ 0) := by
  unfold RwModel.readAcquire RwModel.writeAcquire
  by_cases h : s = RwModel.writerSentinel <;> by_cases h0 : s = 0 <;>
    simp [h, h0]

/-- C5: dropping a `MutexGuard` swaps the state word to `0`, and invokes
`wake_one` on it exactly when the swapped-out old value was `2`; in
particular an old value of `1` (locked, no known waiters) makes no wake
call. -/
theorem mutex_guard_drop_swaps_zero_wakes_iff_two (s : MutexModel.MutexWord) :
    (MutexModel.mutexGuardDrop s).state = 0 ∧
    (MutexModel.mutexGuardDrop s).wakeOneCalls
      = s.wakeOneCalls + (if s.state = 2 then 1 else 0) := by
  unfold MutexModel.mutexGuardDrop MutexModel.atomicSwap MutexModel.wakeOne
  by_cases h : s.state = 2 <;> simp [h]

/-- Receiving from a channel whose `ready` flag is `false` panics and leaves
the state unchanged. -/
theorem receive_not_ready {T : Type} (c : SafeOneshot.Channel T)
    (h : c.ready = false) :
    SafeOneshot.receive c = (RecvResult.panicked "No messages", c) := by
  cases c with
  | mk message ready =>
    cases h
    rfl

/-- Iterated receive attempts on a not-ready channel leave it unchanged. -/
theorem recvIter_not_ready {T : Type} (c : SafeOneshot.Channel T)
    (h : c.ready = false) (k : Nat) :
    SafeOneshot.recvIter k c = c := by
  induction k with
  | zero => rfl
  | succ n ih =>
    unfold SafeOneshot.recvIter at ih ⊢
    rw [Function.iterate_succ_apply, receive_not_ready c h]
    exact ih

/-- The state right after a successful receive of a sent message: the slot
keeps its bits, the `ready` flag is cleared. -/
theorem receive_after_send {T : Type} (v : T) (c : SafeOneshot.Channel T) :
    SafeOneshot.receive (SafeOneshot.send v c)
      = (RecvResult.ok v, { message := some v, ready := false }) := rfl

/-- C6: after `Sender::send(v)` a `Receiver::receive()` returns exactly `v`,
and `receive` fails with the usage error exactly when the `ready` flag was
`false` at the moment of the swap. -/
theorem safe_oneshot_send_receive_contract (T : Type) (v : T)
    (c : SafeOneshot.Channel T) :
    (SafeOneshot.receive (SafeOneshot.send v c)).1 = RecvResult.ok v ∧
    ((SafeOneshot.receive c).1 = RecvResult.panicked "No messages"
      ↔ c.ready = false) := by
  constructor
  · rfl
  · cases c with
    | mk message ready =>
      cases ready
      · simp [SafeOneshot.receive, SafeOneshot.swapReady]
      · cases message <;> simp [SafeOneshot.receive, SafeOneshot.swapReady]

/-- C10: on the safe oneshot channel, a send followed by one receive
succeeds with the sent value, but every further receive on the same
receiver fails with the usage error at runtime, even though the message
slot still physically holds the sent bits — the swap has reset `ready` to
`false`; nothing at the type level prevents the repeated call. -/
theorem safe_oneshot_double_receive_fails (T : Type) (v : T) (k : Nat) :
    (SafeOneshot.receive (SafeOneshot.send v (SafeOneshot.newChannel T))).1
      = RecvResult.ok v ∧
    (SafeOneshot.receive (SafeOneshot.send v (SafeOneshot.newChannel T))).2.message
      = some v ∧
    (SafeOneshot.receive (SafeOneshot.recvIter k
        (SafeOneshot.receive (SafeOneshot.send v (SafeOneshot.newChannel T))).2)).1
      = RecvResult.panicked "No messages" := by
  refine ⟨rfl, rfl, ?_⟩
  rw [receive_after_send]
  rw [recvIter_not_ready _ rfl k]
  rfl

/-- C8: destroying the safe oneshot channel state runs the message
destructor exactly once when a message was sent and never consumed, and not
at all when nothing was sent (any number of failed receive attempts) or
when the message was already received (any number of further attempts). -/
theorem safe_oneshot_drop_destroys_iff_unconsumed (T : Type) (v : T)
    (k1 k2 : Nat) :
    SafeOneshot.dropDestroys (SafeOneshot.recvIter k1 (SafeOneshot.newChannel T)) = 0 ∧
    SafeOneshot.dropDestroys
      (SafeOneshot.send v (SafeOneshot.recvIter k1 (SafeOneshot.newChannel T))) = 1 ∧
    SafeOneshot.dropDestroys (SafeOneshot.recvIter (k2 + 1)
      (SafeOneshot.send v (SafeOneshot.recvIter k1 (SafeOneshot.newChannel T)))) = 0 := by
  rw [recvIter_not_ready _ rfl k1]
  refine ⟨rfl, rfl, ?_⟩
  unfold SafeOneshot.recvIter
  rw [Function.iterate_succ_apply]
  have h2 : (SafeOneshot.receive (SafeOneshot.send v (SafeOneshot.newChannel T))).2
      = { message := some v, ready := false } := rfl
  show SafeOneshot.dropDestroys (SafeOneshot.recvIter k2 _) = 0
  rw [h2, recvIter_not_ready _ rfl k2]
  rfl

/-- Any call to `send` leaves the `in_use` flag set (the swap stores `true`
on both the success and the panic path). -/
theorem usend_sets_inUse {T : Type} (v : T) (c : UnsafeOneshot.UChannel T) :
    (UnsafeOneshot.usend v c).2.inUse = true := by
  cases hc : c.inUse <;> simp [UnsafeOneshot.usend, hc]

/-- `receive` never touches the `in_use` flag. -/
theorem ureceive_keeps_inUse {T : Type} (c : UnsafeOneshot.UChannel T) :
    (UnsafeOneshot.ureceive c).2.inUse = c.inUse := by
  cases hc : c.ready <;> simp [UnsafeOneshot.ureceive, hc] <;>
    cases c.message <;> rfl

/-- The `in_use` flag after a call history equals: it was already set, or
the history contains a send. -/
theorem foldl_ustep_inUse {T : Type} (tr : List (UnsafeOneshot.UOp T))
    (c : UnsafeOneshot.UChannel T) :
    (List.foldl UnsafeOneshot.ustep c tr).inUse
      = (c.inUse || UnsafeOneshot.hasSend tr) := by
  induction tr generalizing c with
  | nil => simp [UnsafeOneshot.hasSend]
  | cons op tr ih =>
    cases op with
    | send v =>
      rw [List.foldl_cons]
      show (List.foldl UnsafeOneshot.ustep (UnsafeOneshot.usend v c).2 tr).inUse = _
      rw [ih, usend_sets_inUse, UnsafeOneshot.hasSend]
      simp
    | recv =>
      rw [List.foldl_cons]
      show (List.foldl UnsafeOneshot.ustep (UnsafeOneshot.ureceive c).2 tr).inUse = _
      rw [ih, ureceive_keeps_inUse, UnsafeOneshot.hasSend]

/-- C7: on the unsafe oneshot channel, after any call history `send` fails
with its usage error exactly when a send has already been invoked (every
call after the first fails), `receive` fails with its usage error exactly
when no message is ready, and a first send followed by a first receive
succeeds and yields the sent value. -/
theorem unsafe_oneshot_contract (T : Type) (v w : T)
    (tr : List (UnsafeOneshot.UOp T)) :
    ((UnsafeOneshot.usend v (UnsafeOneshot.uexec tr)).1
        = SendResult.panicked "Cannot send more than 1 message"
      ↔ UnsafeOneshot.hasSend tr = true) ∧
    ((UnsafeOneshot.ureceive (UnsafeOneshot.uexec tr)).1
        = RecvResult.panicked "Message not ready!"
      ↔ (UnsafeOneshot.uexec tr).ready = false) ∧
    (UnsafeOneshot.ureceive ((UnsafeOneshot.usend w (UnsafeOneshot.newU T)).2)).1
      = RecvResult.ok w := by
  refine ⟨?_, ?_, rfl⟩
  · have h : (UnsafeOneshot.uexec tr).inUse = UnsafeOneshot.hasSend tr := by
      have := foldl_ustep_inUse tr (UnsafeOneshot.newU T)
      simpa [UnsafeOneshot.uexec, UnsafeOneshot.newU] using this
    cases hs : UnsafeOneshot.hasSend tr <;>
      simp [UnsafeOneshot.usend, h, hs]
  · cases hr : (UnsafeOneshot.uexec tr).ready
    · simp [UnsafeOneshot.ureceive, hr]
    · cases hm : (UnsafeOneshot.uexec tr).message <;>
        simp [UnsafeOneshot.ureceive, hr, hm]

/-- FIFO invariant of the blocking queue channel: after any interleaving of
sends and receive attempts, the successfully received values followed by
the values still queued are exactly the sent values, in send order. -/
theorem foldl_qstep_fifo {T : Type} (tr : List (SimpleChan.QOp T))
    (s : SimpleChan.QState T) :
    (List.foldl SimpleChan.qstep s tr).received
        ++ (List.foldl SimpleChan.qstep s tr).queue
      = s.received ++ s.queue ++ SimpleChan.sentList tr := by
  induction tr generalizing s with
  | nil => simp [SimpleChan.sentList]
  | cons op tr ih =>
    rw [List.foldl_cons]
    cases op with
    | send v =>
      rw [show SimpleChan.qstep s (SimpleChan.QOp.send v)
          = { s with queue := SimpleChan.sendQ s.queue v } from rfl, ih]
      simp [SimpleChan.sendQ, SimpleChan.sentList]
    | recv =>
      cases hq : s.queue with
      | nil =>
        rw [show SimpleChan.qstep s SimpleChan.QOp.recv = s by
          simp [SimpleChan.qstep, SimpleChan.receiveQ, hq], ih]
        simp [SimpleChan.sentList, hq]
      | cons x xs =>
        rw [show SimpleChan.qstep s SimpleChan.QOp.recv
            = { queue := xs, received := s.received ++ [x] } by
          simp [SimpleChan.qstep, SimpleChan.receiveQ, hq], ih]
        simp [SimpleChan.sentList, hq]

/-- C9: the blocking queue channel delivers in send order — `send` appends
to the back, `receive` pops the front, and for every interleaved sequence
of sends and receive attempts against a fresh channel, the successful
receives (in order) followed by the remaining queue are exactly the sent
values in send order; in particular when the queue has been drained the
receives are exactly the sends. -/
theorem simple_channel_fifo (T : Type) (tr : List (SimpleChan.QOp T)) :
    (SimpleChan.qexec tr).received ++ (SimpleChan.qexec tr).queue
      = SimpleChan.sentList tr := by
  have h := foldl_qstep_fifo tr ({ queue := [], received := [] } : SimpleChan.QState T)
  simpa [SimpleChan.qexec] using h

namespace MutualExclusion

/-- Summing a pointwise-updated family: the new sum plus the replaced value
equals the old sum plus the new value. -/
theorem sum_update_add {T : Nat} (f : Fin T → Nat) (t : Fin T) (b : Nat) :
    (∑ x : Fin T, Function.update f t b x) + f t = (∑ x : Fin T, f x) + b := by
  rw [Finset.sum_update_of_mem (Finset.mem_univ t)]
  rw [Finset.sdiff_singleton_eq_erase]
  rw [← Finset.add_sum_erase Finset.univ f (Finset.mem_univ t)]
  ring

/-- `sum_update_add` specialized to the completed-writes count of a thread
family with one thread replaced. -/
theorem sum_writesDone_update {T : Nat} (iters : Nat)
    (threads : Fin T → TState) (t : Fin T) (th2 : TState) :
    (∑ x : Fin T, writesDone iters (Function.update threads t th2 x))
        + writesDone iters (threads t)
      = (∑ x : Fin T, writesDone iters (threads x)) + writesDone iters th2 := by
  have h : (∑ x : Fin T, writesDone iters (Function.update threads t th2 x))
      = ∑ x : Fin T,
          Function.update (fun y => writesDone iters (threads y)) t
            (writesDone iters th2) x := by
    refine Finset.sum_congr rfl ?_
    intro x _
    by_cases hx : x = t
    · rw [hx, Function.update_same, Function.update_same]
    · rw [Function.update_noteq hx, Function.update_noteq hx]
  rw [h, sum_update_add]

/-- The invariant holds in the initial state. -/
theorem inv_init (L : LockModel) (T iters : Nat) :
    Inv L T iters (initSys L T iters) := by
  refine ⟨?_, ?_, ?_, ?_, ?_, ?_⟩
  · intro t1 t2 h1 h2
    exact absurd h1 (by simp [initSys, Loc.holds])
  · intro t h
    exact absurd h (by simp [initSys, Loc.holds])
  · intro t
    exact le_refl iters
  · intro t h
    exact absurd h (by simp [initSys, Loc.holds])
  · intro t reg h
    exact absurd h (by simp [initSys])
  · simp [initSys, writesDone]

/-- The invariant is preserved by every atomic step. -/
theorem inv_step {L : LockModel} {T iters : Nat} {sA sB : Sys L T}
    (hinv : Inv L T iters sA) (hstep : Step L T sA sB) :
    Inv L T iters sB := by
  cases hstep with
  | acquire t o s hloc hrem hfree =>
    have hnone : ∀ x : Fin T, ¬ ((sA.threads x).loc.holds = true) := by
      intro x hx
      have hb := hinv.busy x hx
      rw [hfree] at hb
      simp at hb
    refine ⟨?_, ?_, ?_, ?_, ?_, ?_⟩
    · intro t1 t2 h1 h2
      dsimp only at h1 h2
      by_cases e1 : t1 = t
      · by_cases e2 : t2 = t
        · rw [e1, e2]
        · rw [Function.update_noteq e2] at h2
          exact absurd h2 (hnone t2)
      · rw [Function.update_noteq e1] at h1
        exact absurd h1 (hnone t1)
    · intro x hx
      exact L.acq_busy o sA.word
    · intro x
      dsimp only
      by_cases e : x = t
      · rw [e, Function.update_same]
        exact hinv.remBound t
      · rw [Function.update_noteq e]
        exact hinv.remBound x
    · intro x hx
      dsimp only at hx ⊢
      by_cases e : x = t
      · rw [e, Function.update_same]
        show 1 ≤ (sA.threads t).rem
        omega
      · rw [Function.update_noteq e] at hx ⊢
        exact hinv.remPos x hx
    · intro x reg hx
      dsimp only at hx ⊢
      by_cases e : x = t
      · rw [e, Function.update_same] at hx
        exact absurd hx (by simp)
      · rw [Function.update_noteq e] at hx
        exact hinv.regSync x reg hx
    · show sA.counter = ∑ x : Fin T, writesDone iters
        (Function.update sA.threads t
          { loc := Loc.readCS, rem := (sA.threads t).rem } x)
      have hw : writesDone iters
          ({ loc := Loc.readCS, rem := (sA.threads t).rem } : TState)
          = writesDone iters (sA.threads t) := by
        simp [writesDone, hloc]
      have hs := sum_writesDone_update iters sA.threads t
        { loc := Loc.readCS, rem := (sA.threads t).rem }
      rw [hw] at hs
      have h2 := Nat.add_right_cancel hs
      rw [h2]
      exact hinv.counterSum
  | acquireFail t o s hloc hrem hbusy =>
    refine ⟨hinv.mutex, ?_, hinv.remBound, hinv.remPos, hinv.regSync, hinv.counterSum⟩
    intro x hx
    exact L.acq_busy o sA.word
  | readCtr t s hloc =>
    have htholds : (sA.threads t).loc.holds = true := by rw [hloc]; rfl
    refine ⟨?_, ?_, ?_, ?_, ?_, ?_⟩
    · intro t1 t2 h1 h2
      dsimp only at h1 h2
      by_cases e1 : t1 = t
      · by_cases e2 : t2 = t
        · rw [e1, e2]
        · rw [Function.update_noteq e2] at h2
          rw [e1]
          exact (hinv.mutex t2 t h2 htholds).symm
      · rw [Function.update_noteq e1] at h1
        by_cases e2 : t2 = t
        · rw [e2]
          exact hinv.mutex t1 t h1 htholds
        · rw [Function.update_noteq e2] at h2
          exact hinv.mutex t1 t2 h1 h2
    · intro x hx
      exact hinv.busy t htholds
    · intro x
      dsimp only
      by_cases e : x = t
      · rw [e, Function.update_same]
        exact hinv.remBound t
      · rw [Function.update_noteq e]
        exact hinv.remBound x
    · intro x hx
      dsimp only at hx ⊢
      by_cases e : x = t
      · rw [e, Function.update_same]
        show 1 ≤ (sA.threads t).rem
        exact hinv.remPos t htholds
      · rw [Function.update_noteq e] at hx ⊢
        exact hinv.remPos x hx
    · intro x reg hx
      dsimp only at hx ⊢
      by_cases e : x = t
      · rw [e, Function.update_same] at hx
        have : Loc.writeCS sA.counter = Loc.writeCS reg := hx
        cases this
        rfl
      · rw [Function.update_noteq e] at hx
        exact hinv.regSync x reg hx
    · show sA.counter = ∑ x : Fin T, writesDone iters
        (Function.update sA.threads t
          { loc := Loc.writeCS sA.counter, rem := (sA.threads t).rem } x)
      have hw : writesDone iters
          ({ loc := Loc.writeCS sA.counter, rem := (sA.threads t).rem } : TState)
          = writesDone iters (sA.threads t) := by
        simp [writesDone, hloc]
      have hs := sum_writesDone_update iters sA.threads t
        { loc := Loc.writeCS sA.counter, rem := (sA.threads t).rem }
      rw [hw] at hs
      have h2 := Nat.add_right_cancel hs
      rw [h2]
      exact hinv.counterSum
  | writeCtr t s reg hloc =>
    have htholds : (sA.threads t).loc.holds = true := by rw [hloc]; rfl
    refine ⟨?_, ?_, ?_, ?_, ?_, ?_⟩
    · intro t1 t2 h1 h2
      dsimp only at h1 h2
      by_cases e1 : t1 = t
      · by_cases e2 : t2 = t
        · rw [e1, e2]
        · rw [Function.update_noteq e2] at h2
          rw [e1]
          exact (hinv.mutex t2 t h2 htholds).symm
      · rw [Function.update_noteq e1] at h1
        by_cases e2 : t2 = t
        · rw [e2]
          exact hinv.mutex t1 t h1 htholds
        · rw [Function.update_noteq e2] at h2
          exact hinv.mutex t1 t2 h1 h2
    · intro x hx
      exact hinv.busy t htholds
    · intro x
      dsimp only
      by_cases e : x = t
      · rw [e, Function.update_same]
        exact hinv.remBound t
      · rw [Function.update_noteq e]
        exact hinv.remBound x
    · intro x hx
      dsimp only at hx ⊢
      by_cases e : x = t
      · rw [e, Function.update_same]
        show 1 ≤ (sA.threads t).rem
        exact hinv.remPos t htholds
      · rw [Function.update_noteq e] at hx ⊢
        exact hinv.remPos x hx
    · intro x reg2 hx
      dsimp only at hx ⊢
      by_cases e : x = t
      · rw [e, Function.update_same] at hx
        exact absurd hx (by simp)
      · rw [Function.update_noteq e] at hx
        have hxholds : (sA.threads x).loc.holds = true := by rw [hx]; rfl
        exact absurd (hinv.mutex x t hxholds htholds) e
    · show reg + 1 = ∑ x : Fin T, writesDone iters
        (Function.update sA.threads t
          { loc := Loc.unlockCS, rem := (sA.threads t).rem } x)
      have hw : writesDone iters
          ({ loc := Loc.unlockCS, rem := (sA.threads t).rem } : TState)
          = writesDone iters (sA.threads t) + 1 := by
        simp [writesDone, hloc]
      have hs := sum_writesDone_update iters sA.threads t
        { loc := Loc.unlockCS, rem := (sA.threads t).rem }
      have hreg : reg = sA.counter := hinv.regSync t reg hloc
      have hc := hinv.counterSum
      omega
  | unlock t s hloc =>
    have htholds : (sA.threads t).loc.holds = true := by rw [hloc]; rfl
    refine ⟨?_, ?_, ?_, ?_, ?_, ?_⟩
    · intro t1 t2 h1 h2
      dsimp only at h1 h2
      by_cases e1 : t1 = t
      · rw [e1, Function.update_same] at h1
        exact absurd h1 (by simp [Loc.holds])
      · by_cases e2 : t2 = t
        · rw [e2, Function.update_same] at h2
          exact absurd h2 (by simp [Loc.holds])
        · rw [Function.update_noteq e1] at h1
          rw [Function.update_noteq e2] at h2
          exact hinv.mutex t1 t2 h1 h2
    · intro x hx
      dsimp only at hx
      by_cases e : x = t
      · rw [e, Function.update_same] at hx
        exact absurd hx (by simp [Loc.holds])
      · rw [Function.update_noteq e] at hx
        exact absurd (hinv.mutex x t hx htholds) e
    · intro x
      dsimp only
      by_cases e : x = t
      · rw [e, Function.update_same]
        show (sA.threads t).rem - 1 ≤ iters
        have := hinv.remBound t
        omega
      · rw [Function.update_noteq e]
        exact hinv.remBound x
    · intro x hx
      dsimp only at hx ⊢
      by_cases e : x = t
      · rw [e, Function.update_same] at hx
        exact absurd hx (by simp [Loc.holds])
      · rw [Function.update_noteq e] at hx ⊢
        exact hinv.remPos x hx
    · intro x reg hx
      dsimp only at hx ⊢
      by_cases e : x = t
      · rw [e, Function.update_same] at hx
        exact absurd hx (by simp)
      · rw [Function.update_noteq e] at hx
        exact hinv.regSync x reg hx
    · show sA.counter = ∑ x : Fin T, writesDone iters
        (Function.update sA.threads t
          { loc := Loc.idle, rem := (sA.threads t).rem - 1 } x)
      have hw : writesDone iters
          ({ loc := Loc.idle, rem := (sA.threads t).rem - 1 } : TState)
          = iters - ((sA.threads t).rem - 1) := by
        simp [writesDone]
      have hw1 : writesDone iters (sA.threads t)
          = (iters - (sA.threads t).rem) + 1 := by
        simp [writesDone, hloc]
      have hs := sum_writesDone_update iters sA.threads t
        { loc := Loc.idle, rem := (sA.threads t).rem - 1 }
      have hb := hinv.remBound t
      have hp := hinv.remPos t htholds
      have hc := hinv.counterSum
      omega

/-- Every reachable state satisfies the invariant. -/
theorem inv_reachable {L : LockModel} {T iters : Nat} {s : Sys L T}
    (h : Reachable L T iters s) : Inv L T iters s := by
  have h2 : Relation.ReflTransGen (Step L T) (initSys L T iters) s := h
  clear h
  induction h2 with
  | refl => exact inv_init L T iters
  | tail _hab hbc ih => exact inv_step ih hbc

/-- In a reachable state where every thread has completed all its
iterations, the shared counter is exactly threads times iterations. -/
theorem counter_at_done {L : LockModel} {T iters : Nat} {s : Sys L T}
    (hr : Reachable L T iters s) (hd : AllDone s) :
    s.counter = T * iters := by
  have hinv := inv_reachable hr
  rw [hinv.counterSum]
  have hall : ∀ t : Fin T, writesDone iters (s.threads t) = iters := by
    intro t
    obtain ⟨h1, h2⟩ := hd t
    simp [writesDone, h1, h2]
  rw [Finset.sum_congr rfl (fun t _ => hall t)]
  simp [Finset.sum_const, Finset.card_univ, mul_comm]

end MutualExclusion

/-- C4: for the spin lock, the mutex, and the write mode of the
reader-writer lock (whose acquire instruction is modelled from the spec because the
source body is empty; its guard drop is from the source), in the
interleaving semantics of any number `T` of threads each performing 100000
lock/increment/unlock iterations: no reachable state has two guards held
simultaneously over the same instance, and in every reachable state where
all threads have finished, the shared counter is exactly `T * 100000`. -/
theorem locks_mutual_exclusion_and_exact_count (T : Nat)
    (s1 : MutualExclusion.Sys MutualExclusion.spinLockModel T)
    (s2 : MutualExclusion.Sys MutualExclusion.mutexLockModel T)
    (s3 : MutualExclusion.Sys MutualExclusion.rwWriteModel T)
    (h1 : MutualExclusion.Reachable MutualExclusion.spinLockModel T 100000 s1)
    (h2 : MutualExclusion.Reachable MutualExclusion.mutexLockModel T 100000 s2)
    (h3 : MutualExclusion.Reachable MutualExclusion.rwWriteModel T 100000 s3) :
    (MutualExclusion.MutexExcl s1 ∧
      (MutualExclusion.AllDone s1 → s1.counter = T * 100000)) ∧
    (MutualExclusion.MutexExcl s2 ∧
      (MutualExclusion.AllDone s2 → s2.counter = T * 100000)) ∧
    (MutualExclusion.MutexExcl s3 ∧
      (MutualExclusion.AllDone s3 → s3.counter = T * 100000)) := by
  refine ⟨⟨(MutualExclusion.inv_reachable h1).mutex, fun hd => ?_⟩,
    ⟨(MutualExclusion.inv_reachable h2).mutex, fun hd => ?_⟩,
    ⟨(MutualExclusion.inv_reachable h3).mutex, fun hd => ?_⟩⟩
  · exact MutualExclusion.counter_at_done h1 hd
  · exact MutualExclusion.counter_at_done h2 hd
  · exact MutualExclusion.counter_at_done h3 hd

/-- Witness for C4, instantiated at `T = 0` threads: each initial state is
reachable (reflexivity), vacuously all-done, and its counter equals
`0 * 100000`. -/
theorem locks_mutual_exclusion_and_exact_count_witness :
    MutualExclusion.MutexExcl
      (MutualExclusion.initSys MutualExclusion.spinLockModel 0 100000) ∧
    (MutualExclusion.initSys MutualExclusion.spinLockModel 0 100000).counter
      = 0 * 100000 ∧
    MutualExclusion.MutexExcl
      (MutualExclusion.initSys MutualExclusion.mutexLockModel 0 100000) ∧
    (MutualExclusion.initSys MutualExclusion.mutexLockModel 0 100000).counter
      = 0 * 100000 ∧
    MutualExclusion.MutexExcl
      (MutualExclusion.initSys MutualExclusion.rwWriteModel 0 100000) ∧
    (MutualExclusion.initSys MutualExclusion.rwWriteModel 0 100000).counter
      = 0 * 100000 := by
  have h := locks_mutual_exclusion_and_exact_count 0
    (MutualExclusion.initSys MutualExclusion.spinLockModel 0 100000)
    (MutualExclusion.initSys MutualExclusion.mutexLockModel 0 100000)
    (MutualExclusion.initSys MutualExclusion.rwWriteModel 0 100000)
    Relation.ReflTransGen.refl Relation.ReflTransGen.refl
    Relation.ReflTransGen.refl
  exact ⟨h.1.1, h.1.2 (fun t => t.elim0), h.2.1.1, h.2.1.2 (fun t => t.elim0),
    h.2.2.1, h.2.2.2 (fun t => t.elim0)⟩
